import Mathlib

/-!
Verification of the automated content-rewrite workflow
(`llm-rewriter.js`, `scripts/content-validator.js`, `scripts/content-rewriter.js`).

Strings are modelled as `List Char`.  The JavaScript regular expressions used
by the source are small and deterministic on their inputs, so each one is
embedded as an explicit scanning function whose behaviour matches the regex
semantics (leftmost match, greedy/non-greedy as the pattern dictates,
non-overlapping global scans).  File-system state is modelled explicitly as
the content of the one file being processed plus an optional backup snapshot.
The external LLM is modelled as an oracle function passed as a parameter.
-/

namespace Workflow

/-- JavaScript `\s` character class restricted to the ASCII whitespace
characters that can occur in the repository's markdown content. -/
def jsWS (c : Char) : Bool :=
  c = ' ' || c = '\t' || c = '\n' || c = '\r' || c = '\x0b' || c = '\x0c'

/-- JavaScript `String.prototype.trim`. -/
def trimL (s : List Char) : List Char :=
  ((s.dropWhile jsWS).reverse.dropWhile jsWS).reverse

/-- Index of the first occurrence of `pat` as a contiguous sublist of `s`
(JS `String.prototype.indexOf` / first regex match of a literal). -/
def findSubIdx (pat : List Char) : List Char → Option Nat
  | [] => if pat = [] then some 0 else none
  | c :: t =>
    if pat.isPrefixOf (c :: t) then some 0
    else (findSubIdx pat t).map (· + 1)

/-- JS `String.prototype.includes`. -/
def containsSub (pat s : List Char) : Bool :=
  (findSubIdx pat s).isSome

/-! ### The LLM retry loop (`LLMRewriter.callLLM`, llm-rewriter.js lines 22-56)

`callLLM` loops `attempt = 1 .. maxRetries`.  Each iteration performs one
fetch/parse, modelled by the oracle `call : Nat → Except (List Char) (List Char)`
giving the outcome of attempt `n` (`.error msg` = non-2xx / transport error /
malformed body, `.ok content` = extracted `choices[0].message.content`).
On a failed non-final attempt it sleeps `2^attempt * 1000` milliseconds; on a
failed final attempt it throws; if the loop finishes without running it
returns JavaScript `undefined`. -/

inductive LLMOutcome where
  /-- an attempt succeeded and its content was returned -/
  | ok (content : List Char)
  /-- the final attempt failed: `LLM API failed after <n> attempts: <msg>` -/
  | exhausted (n : Nat) (lastMsg : List Char)
  /-- the loop body never ran; the function returns `undefined` -/
  | fellThrough
deriving DecidableEq, Repr

structure LLMTrace where
  /-- number of fetch attempts actually made -/
  attempts : Nat
  /-- backoff sleeps performed, in milliseconds, in order -/
  delaysMs : List Nat
  outcome : LLMOutcome
deriving DecidableEq, Repr

/-- One round of the `for` loop of `callLLM`, with `rem` the number of
loop iterations still allowed (`maxRetries + 1 - attempt`); structural
recursion on `rem` mirrors the loop condition `attempt <= maxRetries`. -/
def callLLMGo (call : Nat → Except (List Char) (List Char)) (maxRetries : Nat) :
    Nat → Nat → LLMTrace
  | _, 0 => ⟨0, [], .fellThrough⟩
  | attempt, rem + 1 =>
    match call attempt with
    | .ok content => ⟨1, [], .ok content⟩
    | .error msg =>
      if attempt = maxRetries then
        ⟨1, [], .exhausted maxRetries msg⟩
      else
        let t := callLLMGo call maxRetries (attempt + 1) rem
        ⟨t.attempts + 1, 2 ^ attempt * 1000 :: t.delaysMs, t.outcome⟩

/-- `LLMRewriter.callLLM(messages, maxRetries)`: the loop starts at
`attempt = 1` and may run at most `maxRetries` iterations. -/
def callLLM (call : Nat → Except (List Char) (List Char)) (maxRetries : Nat) :
    LLMTrace :=
  callLLMGo call maxRetries 1 maxRetries

/-! ### Regex-style scanning

Each JS regex of the source is embedded as a matcher
`List Char → Option Nat` giving the length of the (deterministic) match at
the start of a suffix, plus a generic global scanner that collects
non-overlapping leftmost matches, exactly as `String.prototype.match` with
the `g` flag does.  Scanners use explicit fuel (one unit per character
position) so that they compute by kernel reduction. -/

def scanTokensF (m : List Char → Option Nat) : Nat → List Char → List (List Char)
  | 0, _ => []
  | _ + 1, [] => []
  | fuel + 1, c :: t =>
    match m (c :: t) with
    | some len => (c :: t).take len :: scanTokensF m fuel ((c :: t).drop len)
    | none => scanTokensF m fuel t

/-- All non-overlapping leftmost matches of `m` in `s`, in document order.
Sound for matchers that only return positive lengths (all of ours do). -/
def scanTokens (m : List Char → Option Nat) (s : List Char) : List (List Char) :=
  scanTokensF m s.length s

/-- `{{<` (written with escaped braces). -/
def gistOpenTok : List Char := "\x7b\x7b<".toList

/-- `>}}` — the `\>\}\}` tail of the gist regex. -/
def gistCloseTok : List Char := ">\x7d\x7d".toList

/-- Match of `\{\{<\s*gist[\s\S]*?\>\}\}` at the start of `s`: the literal
opening token, greedy whitespace (deterministic since `g` is not whitespace),
the literal `gist`, then the non-greedy body ending at the earliest `>}}`. -/
def matchGistAt (s : List Char) : Option Nat :=
  if gistOpenTok.isPrefixOf s then
    let r1 := s.drop 3
    let w := (r1.takeWhile jsWS).length
    let r2 := r1.drop w
    if ("gist".toList).isPrefixOf r2 then
      match findSubIdx gistCloseTok (r2.drop 4) with
      | some k => some (3 + w + 4 + k + 3)
      | none => none
    else none
  else none

/-- The ordered sequence of literal gist-shortcode occurrences of a document
(`content.match(/\{\{<\s*gist[\s\S]*?\>\}\}/g) || []`). -/
def gistTokens (s : List Char) : List (List Char) :=
  scanTokens matchGistAt s

/-- The text strictly after the end of the last gist occurrence
(`content.substring(lastGist.index + lastGist[0].length)` after
`matchAll`), or `none` when there is no occurrence. -/
def afterLastGistF : Nat → List Char → Option (List Char)
  | 0, _ => none
  | _ + 1, [] => none
  | fuel + 1, c :: t =>
    match matchGistAt (c :: t) with
    | some len =>
      let rest := (c :: t).drop len
      match afterLastGistF fuel rest with
      | some r => some r
      | none => some rest
    | none => afterLastGistF fuel t

def afterLastGist (s : List Char) : Option (List Char) :=
  afterLastGistF s.length s

/-! ### `ContentValidator` (content-validator.js)

Error and warning messages are modelled as an inductive type carrying the
data interpolated into the JS message strings. -/

inductive VError where
  /-- `Missing or malformed front matter` -/
  | missingFrontMatter
  /-- `Missing required field: <f>` -/
  | missingField (f : List Char)
  /-- `Invalid date format for <f>: <v> (should be YYYY-MM-DD)` -/
  | badDateFormat (f v : List Char)
  /-- `Unmatched square brackets: <o> open, <c> close` -/
  | unmatchedBrackets (o c : Nat)
  /-- ``Unmatched code block markers (```)`` -/
  | unmatchedCodeFence
  /-- `Gist count mismatch: original <o>, new <n>` -/
  | gistCountMismatch (o n : Nat)
  /-- `Gist <i+1> was modified: "<o>" -> "<n>"` -/
  | gistModified (i : Nat) (o n : List Char)
  /-- `Internal link count mismatch: original <o>, new <n>` -/
  | internalLinkCountMismatch (o n : Nat)
deriving DecidableEq, Repr

inductive VWarning where
  /-- `Potential unmatched parentheses in links` -/
  | unmatchedParens
  /-- `Heading count changed: original <o>, new <n>` -/
  | headingCountChanged (o n : Nat)
  /-- `Heading <i+1> changed: "<o>" -> "<n>"` -/
  | headingChanged (i : Nat) (o n : List Char)
  /-- `Link count changed: original <o>, new <n>` -/
  | linkCountChanged (o n : Nat)
  /-- `Content significantly shortened: ...` -/
  | contentShortened
  /-- `Content significantly lengthened: ...` -/
  | contentLengthened
deriving DecidableEq, Repr

/-- Capture group of the validator's front-matter regex
`^---\n([\s\S]*?)\n---\n` (line 20): anchored opener, then the non-greedy
capture ends at the first `\n---\n`. -/
def vFrontMatter (content : List Char) : Option (List Char) :=
  if ("---\n".toList).isPrefixOf content then
    let rest := content.drop 4
    match findSubIdx ("\n---\n".toList) rest with
    | some k => some (rest.take k)
    | none => none
  else none

def requiredFields : List (List Char) :=
  ["title".toList, "productname".toList, "productkey".toList,
   "platformkey".toList, "date".toList, "lastmod".toList, "type".toList]

/-- Required-field presence check (lines 32-36): substring containment of
`field:` anywhere in the front-matter text. -/
def missingFieldErrors (fm : List Char) : List VError :=
  requiredFields.filterMap fun f =>
    if containsSub (f ++ [':']) fm then none else some (.missingField f)

/-- `^\d{4}-\d{2}-\d{2}$` on a captured string: exactly ten characters of
digit/dash shape. -/
def isDateShape : List Char → Bool
  | [a, b, c, d, '-', e, f, '-', g, h] =>
    a.isDigit && b.isDigit && c.isDigit && d.isDigit &&
    e.isDigit && f.isDigit && g.isDigit && h.isDigit
  | _ => false

/-- Match of `field:\s*(\d{4}-\d{2}-\d{2})` at the start of `s`, returning
the capture group. -/
def matchDateAt (field s : List Char) : Option (List Char) :=
  if (field ++ [':']).isPrefixOf s then
    let r := (s.drop (field.length + 1)).dropWhile jsWS
    let d := r.take 10
    if isDateShape d then some d else none
  else none

/-- First match of the date regex anywhere in the front matter. -/
def findDateCapture (field : List Char) : List Char → Option (List Char)
  | [] => none
  | c :: t =>
    match matchDateAt field (c :: t) with
    | some d => some d
    | none => findDateCapture field t

/-- Date-format sub-check of `validateFrontMatter` (lines 39-48): when the
search regex finds a capture, test it against the anchored strict pattern. -/
def dateFieldErrors (fm : List Char) : List VError :=
  ["date".toList, "lastmod".toList].filterMap fun f =>
    match findDateCapture f fm with
    | some d => if isDateShape d then none else some (.badDateFormat f d)
    | none => none

/-- `validateFrontMatter` (lines 19-51), as the list of errors it pushes. -/
def frontMatterErrors (content : List Char) : List VError :=
  match vFrontMatter content with
  | none => [.missingFrontMatter]
  | some fm => missingFieldErrors fm ++ dateFieldErrors fm

def countChar (c : Char) (s : List Char) : Nat :=
  (s.filter (· = c)).length

def fenceTok : List Char := "```".toList

/-- Matcher for a literal pattern (used for the non-overlapping global
counts of ``` and `](`). -/
def matchLitAt (pat s : List Char) : Option Nat :=
  if pat.isPrefixOf s then some pat.length else none

def countSub (pat s : List Char) : Nat :=
  (scanTokens (matchLitAt pat) s).length

/-- Match of `\)\s*[^(]` at the start of `s`: a `)`, greedy whitespace, then
one character that is not `(`; backtracking lets the final whitespace
character itself serve as the `[^(]` when necessary. -/
def matchCloseParenAt (s : List Char) : Option Nat :=
  match s with
  | ')' :: t =>
    let w := (t.takeWhile jsWS).length
    match (t.drop w).head? with
    | some c => if c ≠ '(' then some (1 + w + 1)
                else if 1 ≤ w then some (1 + w) else none
    | none => if 1 ≤ w then some (1 + w) else none
  | _ => none

/-- `validateMarkdownStructure` (lines 126-152): the `issues` array, which
is pushed wholesale onto `errors`. -/
def mdStructErrors (content : List Char) : List VError :=
  (if countChar '[' content ≠ countChar ']' content then
    [VError.unmatchedBrackets (countChar '[' content) (countChar ']' content)]
   else [])
  ++ (if countSub fenceTok content % 2 = 1 then [VError.unmatchedCodeFence] else [])

/-- The parenthesis heuristic of `validateMarkdownStructure` (lines 138-142),
which goes to `warnings` only. -/
def mdStructWarnings (content : List Char) : List VWarning :=
  let op := countSub ("](".toList) content
  let cp := (scanTokens matchCloseParenAt content).length
  if 1 < Nat.dist op cp then [.unmatchedParens] else []

/-- `validateGistPreservation` (lines 56-74): one fatal error on a count
mismatch (then return), otherwise one fatal error per position where the
literal occurrence differs. -/
def gistPresErrors (orig new : List Char) : List VError :=
  let og := gistTokens orig
  let ng := gistTokens new
  if og.length ≠ ng.length then [.gistCountMismatch og.length ng.length]
  else (List.range og.length).filterMap fun i =>
    if og.getD i [] ≠ ng.getD i [] then
      some (.gistModified i (og.getD i []) (ng.getD i []))
    else none

/-- Match of `#{1,6}\s+.+$` at a line-start position (the body of the
multiline heading regex `/^#{1,6}\s+.+$/gm`).  `\s` may cross newlines, `.`
may not, and `$` (multiline) matches before a newline or at the end; greedy
`\s+` backtracks just enough to leave one matchable character for `.+`. -/
def matchHeadingAt (s : List Char) : Option Nat :=
  let hs := (s.takeWhile (· = '#')).length
  if hs = 0 || 6 < hs then none
  else
    let r := s.drop hs
    let run := r.takeWhile jsWS
    if run.length = 0 then none
    else if r.drop run.length ≠ [] then
      -- `\s+` takes the whole whitespace run; `.+` the non-newline run after
      some (hs + run.length + ((r.drop run.length).takeWhile (· ≠ '\n')).length)
    else
      -- the run reaches the end of the string: `\s+` backtracks to the last
      -- position inside the run whose character is not a newline
      match (List.range run.length).filter
          (fun j => 1 ≤ j && run.getD j '\n' ≠ '\n') |>.getLast? with
      | some j => some (hs + j + ((run.drop j).takeWhile (· ≠ '\n')).length)
      | none => none

/-- Global multiline scan for headings: positions qualify only at the start
of a line. -/
def headingScanF : Nat → List Char → Bool → List (List Char)
  | 0, _, _ => []
  | _ + 1, [], _ => []
  | fuel + 1, c :: t, atLineStart =>
    if atLineStart then
      match matchHeadingAt (c :: t) with
      | some len => (c :: t).take len :: headingScanF fuel ((c :: t).drop len) false
      | none => headingScanF fuel t (c = '\n')
    else headingScanF fuel t (c = '\n')

def headingMatches (s : List Char) : List (List Char) :=
  headingScanF s.length s true

/-- `h.replace(/^#+\s+/, '')`. -/
def stripHeadingMark (h : List Char) : List Char :=
  let hs := (h.takeWhile (· = '#')).length
  let r := h.drop hs
  let w := (r.takeWhile jsWS).length
  if 1 ≤ hs && 1 ≤ w then r.drop w else h

/-- `validateHeadingsPreservation` (lines 79-98): warnings only. -/
def headingsWarnings (orig new : List Char) : List VWarning :=
  let oh := (headingMatches orig).map stripHeadingMark
  let nh := (headingMatches new).map stripHeadingMark
  (if oh.length ≠ nh.length then [VWarning.headingCountChanged oh.length nh.length]
   else [])
  ++ ((List.range (min oh.length nh.length)).filterMap fun i =>
      if oh.getD i [] ≠ nh.getD i [] then
        some (.headingChanged i (oh.getD i []) (nh.getD i []))
      else none)

/-- Match of `\[([^\]]*)\]\([^)]+\)` at the start of `s`. -/
def matchLinkAt (s : List Char) : Option Nat :=
  match s with
  | '[' :: t =>
    let txt := t.takeWhile (· ≠ ']')
    match t.drop txt.length with
    | ']' :: '(' :: u =>
      let url := u.takeWhile (· ≠ ')')
      if 1 ≤ url.length then
        match u.drop url.length with
        | ')' :: _ => some (1 + txt.length + 2 + url.length + 1)
        | _ => none
      else none
    | _ => none
  | _ => none

/-- Match of the internal cross-reference marker
`\{\{<\s*site\/baseurl\s*\>\}` (note: a single closing brace). -/
def matchBaseurlAt (s : List Char) : Option Nat :=
  if gistOpenTok.isPrefixOf s then
    let r := s.drop 3
    let w := (r.takeWhile jsWS).length
    let r2 := r.drop w
    if ("site/baseurl".toList).isPrefixOf r2 then
      let r3 := r2.drop 12
      let w2 := (r3.takeWhile jsWS).length
      if (">\x7d".toList).isPrefixOf (r3.drop w2) then
        some (3 + w + 12 + w2 + 2)
      else none
    else none
  else none

/-- `validateLinksPreservation` (lines 103-121): the internal-link count
mismatch is fatal. -/
def linkErrors (orig new : List Char) : List VError :=
  let oc := (scanTokens matchBaseurlAt orig).length
  let nc := (scanTokens matchBaseurlAt new).length
  if oc ≠ nc then [.internalLinkCountMismatch oc nc] else []

/-- The markdown-link count delta of `validateLinksPreservation`: warning
only. -/
def linkWarnings (orig new : List Char) : List VWarning :=
  let oc := (scanTokens matchLinkAt orig).length
  let nc := (scanTokens matchLinkAt new).length
  if oc ≠ nc then [.linkCountChanged oc nc] else []

/-- `validateContentLength` (lines 157-169): the float ratio tests
`new/orig < 0.5` and `new/orig > 2.0` expressed exactly over naturals
(`0/0` is NaN in JS and triggers neither warning; `n/0` for `n > 0` is
`Infinity` and triggers the second). -/
def lengthWarnings (orig new : List Char) : List VWarning :=
  if 2 * new.length < orig.length then [.contentShortened]
  else if 2 * orig.length < new.length then [.contentLengthened]
  else []

structure VReport where
  errors : List VError
  warnings : List VWarning
deriving DecidableEq, Repr

/-- `valid: this.errors.length === 0`. -/
def VReport.valid (r : VReport) : Bool := r.errors.isEmpty

/-- `validateFile` (lines 174-206) on the file's content, with the optional
original content for the comparison validations.  Errors and warnings
accumulate in the order the sub-validators run. -/
def validateFileModel (content : List Char) (orig : Option (List Char)) : VReport :=
  { errors :=
      frontMatterErrors content ++ mdStructErrors content ++
      (match orig with
       | some o => gistPresErrors o content ++ linkErrors o content
       | none => []),
    warnings :=
      mdStructWarnings content ++
      (match orig with
       | some o => headingsWarnings o content ++ linkWarnings o content ++
           lengthWarnings o content
       | none => []) }

/-! ### `ContentProcessor` span extraction (content-rewriter.js) -/

/-- First match index of the multiline regex `/^## /m` (tracking whether the
current position is at the start of a line). -/
def firstHeadingIdxAux : List Char → Bool → Nat → Option Nat
  | [], _, _ => none
  | c :: t, atLineStart, idx =>
    if atLineStart && ("## ".toList).isPrefixOf (c :: t) then some idx
    else firstHeadingIdxAux t (c = '\n') (idx + 1)

def firstHeadingIdx (s : List Char) : Option Nat :=
  firstHeadingIdxAux s true 0

/-- Does `\{\{<\s*gist` (the opener-only regex of `extractOpeningParagraph`)
match at the start of `s`? -/
def isGistOpenAt (s : List Char) : Bool :=
  gistOpenTok.isPrefixOf s &&
  ("gist".toList).isPrefixOf ((s.drop 3).dropWhile jsWS)

def firstGistOpenIdxAux : List Char → Nat → Option Nat
  | [], _ => none
  | c :: t, idx =>
    if isGistOpenAt (c :: t) then some idx
    else firstGistOpenIdxAux t (idx + 1)

def firstGistOpenIdx (s : List Char) : Option Nat :=
  firstGistOpenIdxAux s 0

/-- `extractOpeningParagraph` (lines 453-469): the if/else-if chain of the
source choosing `endPosition`, then `substring(0, endPosition).trim()`. -/
def extractOpeningParagraph (content : List Char) : List Char :=
  let firstHeading := firstHeadingIdx content
  let firstGist := firstGistOpenIdx content
  let endPosition :=
    match firstHeading, firstGist with
    | some hi, some gi => min hi gi
    | some hi, none => hi
    | none, some gi => gi
    | none, none => content.length
  trimL (content.take endPosition)

/-- Modelled from the spec's words (§4.2 Opening): the opening span ends at
the minimum of the two marker offsets, each treated as the body length when
the marker is absent; the result is trimmed. -/
def openingSpanSpec (content : List Char) : List Char :=
  trimL (content.take
    (min ((firstHeadingIdx content).getD content.length)
         ((firstGistOpenIdx content).getD content.length)))

/-- Index of the last `'\n'` in a list. -/
def lastNlIdx : List Char → Option Nat
  | [] => none
  | c :: t =>
    match lastNlIdx t with
    | some k => some (k + 1)
    | none => if c = '\n' then some 0 else none

/-- JS `split(/\n\s*\n/)`, scanning character by character.  A separator
starts at a `'\n'` whose following whitespace run contains another newline;
greedy `\s*` with backtracking makes the separator end at the *last* newline
of that run.  When the run contains no further newline the regex cannot
match there and the character joins the current piece. -/
def jsSplitAux : Nat → List Char → List Char → List (List Char)
  | 0, _, acc => [acc.reverse]
  | _ + 1, [], acc => [acc.reverse]
  | fuel + 1, c :: t, acc =>
    if c = '\n' then
      match lastNlIdx (t.takeWhile jsWS) with
      | some k => acc.reverse :: jsSplitAux fuel (t.drop (k + 1)) []
      | none => jsSplitAux fuel t (c :: acc)
    else jsSplitAux fuel t (c :: acc)

def jsSplitBlank (s : List Char) : List (List Char) :=
  jsSplitAux s.length s []

/-- `p.match(/^#+\s/)`: one or more leading `#` followed by one whitespace
character. -/
def isHeadingStart (p : List Char) : Bool :=
  let hs := (p.takeWhile (· = '#')).length
  1 ≤ hs &&
    (match (p.drop hs).head? with
     | some c => jsWS c
     | none => false)

/-- `extractClosingParagraphs` (lines 474-492): the text after the last gist
occurrence, split on `/\n\s*\n/`, each piece trimmed, empty pieces and
heading-initial pieces discarded. -/
def extractClosingParagraphs (content : List Char) : List (List Char) :=
  match afterLastGist content with
  | none => []
  | some rest =>
    ((jsSplitBlank rest).map trimL).filter
      (fun p => 1 ≤ p.length && !isHeadingStart p)

/-! ### Spec-side closing-span extraction and proof intermediates (claim C3)

The spec describes the closing paragraphs as the maximal
blank-line-separated paragraphs of the text after the last shortcode
occurrence ("maximal runs of non-blank-line text separated by blank-line
runs"), trimmed, with empty and heading-initial candidates discarded.  That
is formalised below line-wise: split the text into lines, group maximal runs
of consecutive non-blank lines, and rejoin each group.  `jsLines` is a proof
intermediate reconstructing the character-level `jsSplitAux` scan at the
line level. -/

/-- Split a text into its lines (separators are `'\n'`; a text with `n`
newlines has `n + 1` lines). -/
def splitNl : List Char → List (List Char)
  | [] => [[]]
  | c :: t =>
    if c = '\n' then [] :: splitNl t
    else
      match splitNl t with
      | l :: ls => (c :: l) :: ls
      | [] => [[c]]

/-- A blank line: whitespace characters only. -/
def isBlankLine (l : List Char) : Bool := l.all jsWS

/-- Rejoin lines with newlines (inverse of `splitNl`). -/
def joinNl : List (List Char) → List Char
  | [] => []
  | [l] => l
  | l :: g => l ++ '\n' :: joinNl g

/-- Maximal runs of consecutive non-blank lines. -/
def blankGroups : List (List Char) → List (List (List Char))
  | [] => []
  | l :: ls =>
    if isBlankLine l then blankGroups ls
    else
      match ls with
      | [] => [[l]]
      | l' :: _ =>
        if isBlankLine l' then [l] :: blankGroups ls
        else
          match blankGroups ls with
          | g :: gs => (l :: g) :: gs
          | [] => [[l]]

/-- Modelled from the spec's words (§4.2 Closing): the trimmed maximal
blank-line-separated paragraphs of the text strictly after the last gist
occurrence, excluding empty and heading-initial candidates; the empty
sequence when there is no occurrence. -/
def closingSpanSpec (content : List Char) : List (List Char) :=
  match afterLastGist content with
  | none => []
  | some rest =>
    (((blankGroups (splitNl rest)).map joinNl).map trimL).filter
      (fun p => 1 ≤ p.length && !isHeadingStart p)

/-- The first line of a text (prefix before the first newline). -/
def firstLine (r : List Char) : List Char :=
  r.takeWhile (fun c => !decide (c = '\n'))

/-- Prepend to the first element of a list of pieces. -/
def consHead (x : List Char) : List (List Char) → List (List Char)
  | [] => [x]
  | p :: ps => (x ++ p) :: ps

/-- What remains of a line list after a `\n\s*\n` separator that starts at
the newline preceding its first line: the lines after the leading blank run,
or just the final (blank) line when every line is blank. -/
def blankDrop (ls : List (List Char)) : List (List Char) :=
  match ls.dropWhile (fun l => isBlankLine l) with
  | [] => [ls.getLastD []]
  | rest => rest

/-- Line-level reconstruction of the `jsSplitAux` scan: a separator sits at
the newline between `l` and `l1` exactly when `l1` is blank and is not the
final line. -/
def jsLines : List (List Char) → List (List Char)
  | [] => [[]]
  | [l] => [l]
  | l :: l1 :: ls2 =>
    if isBlankLine l1 ∧ ls2 ≠ [] then
      match hdw : (l1 :: ls2).dropWhile (fun x => isBlankLine x) with
      | [] => [l, (l1 :: ls2).getLastD []]
      | r :: rs => l :: jsLines (r :: rs)
    else consHead (l ++ ['\n']) (jsLines (l1 :: ls2))
termination_by ls => ls.length
decreasing_by
  · have hle := (List.dropWhile_sublist (l := l1 :: ls2)
      (fun x => isBlankLine x)).length_le
    rw [hdw] at hle
    simp only [List.length_cons] at hle ⊢
    omega
  · simp

/-! ### `ContentProcessor` pipeline (content-rewriter.js) -/

/-- Match of `\n---\r?\n` at the start of `s` (the mandatory part of the
front-matter closing delimiter). -/
def fmCloseCore (s : List Char) : Option Nat :=
  if ("\n---".toList).isPrefixOf s then
    match s.drop 4 with
    | '\r' :: '\n' :: _ => some 6
    | '\n' :: _ => some 5
    | _ => none
  else none

/-- Match of `\r?\n---\r?\n` at the start of `s`: greedy `\r?` with no
viable backtracking (dropping the `\r` would require `\n` at a `\r`). -/
def fmCloseLen (s : List Char) : Option Nat :=
  match s with
  | '\r' :: t => (fmCloseCore t).map (· + 1)
  | _ => fmCloseCore s

/-- Match of the anchored opener `^---\r?\n`. -/
def fmOpenLen (s : List Char) : Option Nat :=
  if ("---".toList).isPrefixOf s then
    match s.drop 3 with
    | '\r' :: '\n' :: _ => some 5
    | '\n' :: _ => some 4
    | _ => none
  else none

/-- First position (and match length) at which the matcher `m` fires. -/
def findMatch (m : List Char → Option Nat) : List Char → Nat → Option (Nat × Nat)
  | [], _ => none
  | c :: t, idx =>
    match m (c :: t) with
    | some len => some (idx, len)
    | none => findMatch m t (idx + 1)

/-- `parseFrontMatter` (lines 419-430):
`^---\r?\n([\s\S]*?)\r?\n---\r?\n([\s\S]*)$`; the non-greedy capture ends at
the first closing delimiter, the second capture takes the rest. -/
def parseFrontMatter (raw : List Char) : Option (List Char × List Char) :=
  match fmOpenLen raw with
  | none => none
  | some ol =>
    let rest := raw.drop ol
    match findMatch fmCloseLen rest 0 with
    | none => none
    | some (k, cl) => some (rest.take k, rest.drop (k + cl))

/-- Match of `key:\s*"([^"]+)"` at the start of `s`, returning the capture
(used for `title` and `platformkey`, lines 509-510). -/
def matchQuotedAt (key s : List Char) : Option (List Char) :=
  if (key ++ [':']).isPrefixOf s then
    match (s.drop (key.length + 1)).dropWhile jsWS with
    | '"' :: u =>
      let v := u.takeWhile (· ≠ '"')
      if 1 ≤ v.length then
        match u.drop v.length with
        | '"' :: _ => some v
        | _ => none
      else none
    | _ => none
  else none

/-- First match of the quoted-value regex anywhere in the front matter. -/
def findQuoted (key : List Char) : List Char → Option (List Char)
  | [] => none
  | c :: t =>
    match matchQuotedAt key (c :: t) with
    | some v => some v
    | none => findQuoted key t

/-- Match of `lastmod:\s*\d{4}-\d{2}-\d{2}` at the start of `s`. -/
def matchLastmodDateAt (s : List Char) : Option Nat :=
  if ("lastmod:".toList).isPrefixOf s then
    let w := ((s.drop 8).takeWhile jsWS).length
    if isDateShape ((s.drop (8 + w)).take 10) then some (8 + w + 10) else none
  else none

/-- Match of `date:\s*\d{4}-\d{2}-\d{2}` at the start of `s`. -/
def matchDateFullAt (s : List Char) : Option Nat :=
  if ("date:".toList).isPrefixOf s then
    let w := ((s.drop 5).takeWhile jsWS).length
    if isDateShape ((s.drop (5 + w)).take 10) then some (5 + w + 10) else none
  else none

/-- `updateLastMod` (lines 435-448), with the current date supplied as
`today`: replace the first `lastmod:<date>` when a `lastmod:` substring is
present, otherwise insert `lastmod` after the first `date:<date>`; a
no-match `replace` leaves the string unchanged. -/
def updateLastMod (today fm : List Char) : List Char :=
  if containsSub ("lastmod:".toList) fm then
    match findMatch matchLastmodDateAt fm 0 with
    | some (i, len) =>
      fm.take i ++ ("lastmod: ".toList) ++ today ++ fm.drop (i + len)
    | none => fm
  else
    match findMatch matchDateFullAt fm 0 with
    | some (i, len) =>
      fm.take (i + len) ++ ("\nlastmod: ".toList) ++ today ++ fm.drop (i + len)
    | none => fm

/-- JS `String.prototype.replace` with a string pattern: replace the first
occurrence, no-op when absent. -/
def replaceFirst (s pat repl : List Char) : List Char :=
  match findSubIdx pat s with
  | some i => s.take i ++ repl ++ s.drop (i + pat.length)
  | none => s

/-- The closing-paragraph rewrite loop (lines 555-570): each paragraph is
rewritten by the oracle (indexed by call order) and substituted for its
first occurrence in the evolving body. -/
def applyClosingRewrites (rwC : Nat → List Char → List Char) :
    List (List Char) → Nat → List Char → List Char
  | [], _, acc => acc
  | p :: ps, i, acc =>
    applyClosingRewrites rwC ps (i + 1) (replaceFirst acc p (trimL (rwC i p)))

inductive ChangeEntry where
  /-- `'opening paragraph'` -/
  | openingParagraph
  /-- `'<n> closing paragraphs'` -/
  | closingParagraphs (n : Nat)
deriving DecidableEq, Repr

inductive ProcStatus where
  | success
  | error
deriving DecidableEq, Repr

inductive ProcError where
  /-- `No front matter found in file` -/
  | noFrontMatter
  /-- `Could not extract title or platform from front matter` -/
  | missingTitleOrPlatform
  /-- `Validation failed: <joined errors>` -/
  | validationFailed (errors : List VError)
deriving DecidableEq, Repr

structure ProcResult where
  status : ProcStatus
  changes : List ChangeEntry
  err : Option ProcError
deriving DecidableEq, Repr

structure FileOutcome where
  /-- on-disk content of the document after `processArticle` finishes -/
  file : List Char
  /-- backup snapshot remaining on disk afterwards, if any -/
  backup : Option (List Char)
  /-- the entry pushed to `processedFiles`; `none` on the skip path, which
  returns `null` without recording anything -/
  result : Option ProcResult
deriving DecidableEq, Repr

/-- The reconstructed candidate written to disk before validation
(`newFileContent`, line 579): opening rewritten when non-empty, closing
paragraphs rewritten in order, `lastmod` refreshed. -/
def candidateContent (rwO : List Char → List Char)
    (rwC : Nat → List Char → List Char) (today fm content : List Char) :
    List Char :=
  let opening := extractOpeningParagraph content
  let closings := extractClosingParagraphs content
  let c1 := if opening ≠ [] then replaceFirst content opening (trimL (rwO opening))
            else content
  let c2 := applyClosingRewrites rwC closings 0 c1
  ("---\n".toList) ++ updateLastMod today fm ++ ("\n---\n".toList) ++ c2

/-- `processArticle` (lines 497-640) as a state transformer on the document
file and its backup snapshot.  Oracles: `rwO` rewrites the opening span,
`rwC i p` rewrites the `i`-th closing paragraph `p`.  The backup is created
just before the write; on validation failure `restoreFromBackup` copies it
back and unlinks it, and the raised `ValidationFailed` is caught and turned
into an error result; on success the backup is unlinked. -/
def processArticle (rwO : List Char → List Char)
    (rwC : Nat → List Char → List Char) (today file : List Char) :
    FileOutcome :=
  match parseFrontMatter file with
  | none => ⟨file, none, some ⟨.error, [], some .noFrontMatter⟩⟩
  | some (fm, content) =>
    match findQuoted ("title".toList) fm, findQuoted ("platformkey".toList) fm with
    | some _, some _ =>
      if extractOpeningParagraph content = [] ∧ extractClosingParagraphs content = [] then
        ⟨file, none, none⟩
      else
        let newFile := candidateContent rwO rwC today fm content
        let changes :=
          (if extractOpeningParagraph content ≠ [] then [ChangeEntry.openingParagraph]
           else []) ++
          (if (extractClosingParagraphs content).length ≠ 0 then
            [ChangeEntry.closingParagraphs (extractClosingParagraphs content).length]
           else [])
        if (validateFileModel newFile (some file)).errors = [] then
          ⟨newFile, none, some ⟨.success, changes, none⟩⟩
        else
          ⟨file, none, some ⟨.error, [],
            some (.validationFailed (validateFileModel newFile (some file)).errors)⟩⟩
    | _, _ => ⟨file, none, some ⟨.error, [], some .missingTitleOrPlatform⟩⟩

/-- `processArticles`: sequential runs; only non-`null` returns are pushed
to `processedFiles`. -/
def runArticles (rwO : List Char → List Char)
    (rwC : Nat → List Char → List Char) (today : List Char)
    (files : List (List Char)) : List ProcResult :=
  files.filterMap fun f => (processArticle rwO rwC today f).result

structure RunSummary where
  total : Nat
  successful : Nat
  failed : Nat
deriving DecidableEq, Repr

/-- The summary counts of `generateReport` (lines 665-688). -/
def generateReport (results : List ProcResult) : RunSummary :=
  ⟨results.length,
   (results.filter (fun r => r.status = ProcStatus.success)).length,
   (results.filter (fun r => r.status = ProcStatus.error)).length⟩

/-! ### Concrete sample documents used by witnesses and counterexamples -/

/-- A well-formed document: complete front matter and one gist shortcode. -/
def sampleDoc : List Char :=
  ("---\ntitle: x\nproductname: x\nproductkey: x\nplatformkey: x\n" ++
   "date: 2024-01-01\nlastmod: 2024-01-01\ntype: x\n---\n" ++
   "body \x7b\x7b< gist a >\x7d\x7d\n").toList

/-- Well-formed front matter, body consisting of a single `[`. -/
def bracketDoc : List Char :=
  ("---\ntitle: x\nproductname: x\nproductkey: x\nplatformkey: x\n" ++
   "date: 2024-01-01\nlastmod: 2024-01-01\ntype: x\n---\n[\n").toList

/-- Well-formed front matter, body containing a single code-fence marker. -/
def fenceDoc : List Char :=
  ("---\ntitle: x\nproductname: x\nproductkey: x\nplatformkey: x\n" ++
   "date: 2024-01-01\nlastmod: 2024-01-01\ntype: x\n---\n```\n").toList

/-- Document whose `date` value `2024-1-1` violates the strict
`YYYY-MM-DD` pattern. -/
def badDateDoc : List Char :=
  ("---\ntitle: x\nproductname: x\nproductkey: x\nplatformkey: x\n" ++
   "date: 2024-1-1\nlastmod: 2024-01-01\ntype: x\n---\nbody\n").toList

/-- Document with no `title` field, but with a `subtitle` field whose key
contains the substring `title:`. -/
def subtitleDoc : List Char :=
  ("---\nsubtitle: x\nproductname: x\nproductkey: x\nplatformkey: x\n" ++
   "date: 2024-01-01\nlastmod: 2024-01-01\ntype: x\n---\nbody\n").toList

/-- A document the pipeline can fully process: quoted `title` and
`platformkey`, an opening paragraph, a gist and a closing paragraph. -/
def rewriteDoc : List Char :=
  ("---\ntitle: \"T\"\nproductname: x\nproductkey: x\nplatformkey: \"java\"\n" ++
   "date: 2024-01-01\nlastmod: 2024-01-01\ntype: x\n---\n" ++
   "Hello.\n\n\x7b\x7b< gist a >\x7d\x7d\n\nBye.\n").toList

def rewriteDocFm : List Char := ((parseFrontMatter rewriteDoc).getD ([], [])).1

def rewriteDocBody : List Char := ((parseFrontMatter rewriteDoc).getD ([], [])).2

/-- A rewrite oracle that corrupts the document (introduces an unmatched
bracket), so that validation of the candidate fails. -/
def corruptingRewrite : List Char → List Char := fun _ => "Oops [".toList

def benignClosingRewrite : Nat → List Char → List Char := fun _ _ => "Done.".toList

/-- A processable document whose body starts with a heading and has no gist:
the opening span is empty and the closing sequence is empty, so
`processArticle` takes the skip path. -/
def skipDoc : List Char :=
  ("---\ntitle: \"T\"\nproductname: x\nproductkey: x\nplatformkey: \"java\"\n" ++
   "date: 2024-01-01\nlastmod: 2024-01-01\ntype: x\n---\n## H\ntext\n").toList

def skipDocBody : List Char := ((parseFrontMatter skipDoc).getD ([], [])).2

/-- Identity rewrite oracles (never reached on the skip path). -/
def idRewrite : List Char → List Char := fun p => p

def idClosingRewrite : Nat → List Char → List Char := fun _ p => p

/-! ## Theorems -/

/-! ### Retry loop (claims C5, C9) -/

/-- Retry loop invariant: starting from attempt `a` with `rem` iterations
left such that `a + rem = maxRetries + 1`, an always-failing call makes
exactly `rem` attempts, sleeps after every failed attempt but the last, and
throws the exhausted-retries error carrying the last attempt's message. -/
theorem callLLMGo_allFail (call : Nat → Except (List Char) (List Char))
    (e : Nat → List Char) (hfail : ∀ n, call n = .error (e n))
    (maxRetries : Nat) :
    ∀ rem a, a + rem = maxRetries + 1 → 1 ≤ rem →
      callLLMGo call maxRetries a rem =
        ⟨rem, (List.range' a (rem - 1)).map (fun k => 2 ^ k * 1000),
          .exhausted maxRetries (e maxRetries)⟩ := by
  intro rem
  induction rem with
  | zero => omega
  | succ r ih =>
    intro a ha _
    rw [callLLMGo, hfail a]
    rcases Nat.eq_zero_or_pos r with hr | hr
    · subst hr
      have : a = maxRetries := by omega
      subst this
      simp
    · have hne : a ≠ maxRetries := by omega
      dsimp only
      rw [if_neg hne]
      rw [ih (a + 1) (by omega) hr]
      have hr' : r - 1 + 1 = r := by omega
      have hrange : List.range' a r = a :: List.range' (a + 1) (r - 1) := by
        conv_lhs => rw [← hr']
        rw [List.range'_succ]
      simp [hrange]

/-- Claim C5: for every `maxRetries ≥ 1` and every client whose underlying
call fails on every attempt, `callLLM` makes exactly `maxRetries` attempts,
sleeps `2^attempt` seconds (`2^attempt * 1000` ms) after each failed attempt
except the last, and raises the exhausted-retries error carrying the last
attempt's error message. -/
theorem callLLM_retry_ceiling (call : Nat → Except (List Char) (List Char))
    (e : Nat → List Char) (maxRetries : Nat)
    (hfail : ∀ n, call n = .error (e n)) (hpos : 1 ≤ maxRetries) :
    callLLM call maxRetries =
      ⟨maxRetries, (List.range' 1 (maxRetries - 1)).map (fun k => 2 ^ k * 1000),
        .exhausted maxRetries (e maxRetries)⟩ := by
  unfold callLLM
  exact callLLMGo_allFail call e hfail maxRetries maxRetries 1 (by omega) hpos

theorem callLLM_retry_ceiling_witness :
    callLLM (fun _ => .error ['x']) 3 = ⟨3, [2000, 4000], .exhausted 3 ['x']⟩ :=
  callLLM_retry_ceiling (fun _ => .error ['x']) (fun _ => ['x']) 3
    (fun _ => rfl) (by decide)

/-- Claim C9: for `maxRetries = 0` (the only non-positive value of the
natural-number retry count), `callLLM` makes no attempt at all, raises no
error and returns `undefined` (`fellThrough`): the documented
exhausted-retries branch is unreachable. -/
theorem callLLM_zero_makes_no_attempt
    (call : Nat → Except (List Char) (List Char)) :
    callLLM call 0 = ⟨0, [], .fellThrough⟩ := rfl

/-! ### Gist preservation (claim C1) -/

theorem gistPresErrors_eq_nil_iff (o c : List Char) :
    gistPresErrors o c = [] ↔ gistTokens o = gistTokens c := by
  unfold gistPresErrors
  rcases eq_or_ne (gistTokens o).length (gistTokens c).length with h | h
  · rw [if_neg (by omega)]
    constructor
    · intro hnil
      rw [List.filterMap_eq_nil_iff] at hnil
      apply List.ext_getElem h
      intro i h1 h2
      have hi := hnil i (List.mem_range.mpr h1)
      rw [← List.getD_eq_getElem (gistTokens o) [] h1,
          ← List.getD_eq_getElem (gistTokens c) [] h2]
      by_contra hne
      rw [if_pos hne] at hi
      exact Option.some_ne_none _ hi
    · intro heq
      rw [List.filterMap_eq_nil_iff]
      intro i _
      rw [heq, if_neg (by simp)]
  · rw [if_pos h]
    constructor
    · intro hnil
      exact absurd hnil (by simp)
    · intro heq
      exact absurd (congrArg List.length heq) h

theorem validateFileModel_valid_iff (content : List Char) (o : List Char) :
    (validateFileModel content (some o)).valid = true ↔
      frontMatterErrors content = [] ∧ mdStructErrors content = [] ∧
      gistPresErrors o content = [] ∧ linkErrors o content = [] := by
  unfold validateFileModel VReport.valid
  simp [List.isEmpty_iff, List.append_eq_nil, and_assoc]

/-- Claim C1: a candidate accepted by validation (against the original)
preserves the ordered sequence of literal gist-shortcode occurrences; any
count mismatch or per-position literal divergence yields a fatal error and
makes `validateFile` report `valid = false`. -/
theorem accepted_candidate_preserves_gists (o c : List Char) :
    ((validateFileModel c (some o)).valid = true → gistTokens o = gistTokens c) ∧
    (gistTokens o ≠ gistTokens c →
      gistPresErrors o c ≠ [] ∧ (validateFileModel c (some o)).valid = false) := by
  constructor
  · intro hv
    exact (gistPresErrors_eq_nil_iff o c).mp
      ((validateFileModel_valid_iff c o).mp hv).2.2.1
  · intro hne
    have hg : gistPresErrors o c ≠ [] :=
      fun hnil => hne ((gistPresErrors_eq_nil_iff o c).mp hnil)
    refine ⟨hg, ?_⟩
    by_contra hv
    rw [Bool.not_eq_false] at hv
    exact hg ((validateFileModel_valid_iff c o).mp hv).2.2.1

set_option maxRecDepth 40000 in
theorem accepted_candidate_preserves_gists_witness :
    (validateFileModel sampleDoc (some sampleDoc)).valid = true ∧
    gistTokens sampleDoc = gistTokens sampleDoc :=
  ⟨by decide, (accepted_candidate_preserves_gists sampleDoc sampleDoc).1 (by decide)⟩

/-! ### Bracket mismatch is fatal, not a warning (claim C6) -/

theorem mdStructErrors_nonempty_invalid (content : List Char)
    (x : VError) (hx : x ∈ mdStructErrors content) :
    (validateFileModel content none).valid = false := by
  unfold validateFileModel VReport.valid
  rcases List.eq_nil_or_concat (mdStructErrors content) with h | h
  · rw [h] at hx
    cases hx
  · simp [List.isEmpty_iff, List.append_eq_nil]
    intro _ hmd
    rw [hmd] at hx
    cases hx

set_option maxRecDepth 40000 in
/-- Claim C6 counterexample: a document whose only structural issue is a
square-bracket count mismatch is rejected: the mismatch lands in `errors`
(not `warnings`) and alone makes `validateFile` report `valid = false`. -/
theorem bracket_mismatch_warning_only_cex :
    (validateFileModel bracketDoc none).errors = [.unmatchedBrackets 1 0] ∧
    (validateFileModel bracketDoc none).warnings = [] ∧
    (validateFileModel bracketDoc none).valid = false := by decide

/-- Claim C6 (amended): a mismatch between the counts of `[` and `]` found
by `validateMarkdownStructure` produces a fatal error (it alone makes
`validateFile` report `valid = false`), and an odd count of code-fence
markers likewise produces a fatal error. -/
theorem bracket_mismatch_is_fatal (content : List Char) :
    (countChar '[' content ≠ countChar ']' content →
      VError.unmatchedBrackets (countChar '[' content) (countChar ']' content)
        ∈ mdStructErrors content ∧
      (validateFileModel content none).valid = false) ∧
    (countSub fenceTok content % 2 = 1 →
      VError.unmatchedCodeFence ∈ mdStructErrors content ∧
      (validateFileModel content none).valid = false) := by
  constructor
  · intro hne
    have hmem : VError.unmatchedBrackets (countChar '[' content)
        (countChar ']' content) ∈ mdStructErrors content := by
      unfold mdStructErrors
      rw [if_pos hne]
      exact List.mem_append_left _ (List.mem_singleton.mpr rfl)
    exact ⟨hmem, mdStructErrors_nonempty_invalid content _ hmem⟩
  · intro hodd
    have hmem : VError.unmatchedCodeFence ∈ mdStructErrors content := by
      unfold mdStructErrors
      rw [if_pos hodd]
      exact List.mem_append_right _ (List.mem_singleton.mpr rfl)
    exact ⟨hmem, mdStructErrors_nonempty_invalid content _ hmem⟩

set_option maxRecDepth 40000 in
theorem bracket_mismatch_is_fatal_witness :
    (countChar '[' bracketDoc ≠ countChar ']' bracketDoc ∧
      (validateFileModel bracketDoc none).valid = false) ∧
    (countSub fenceTok fenceDoc % 2 = 1 ∧
      (validateFileModel fenceDoc none).valid = false) :=
  ⟨⟨by decide, ((bracket_mismatch_is_fatal bracketDoc).1 (by decide)).2⟩,
   ⟨by decide, ((bracket_mismatch_is_fatal fenceDoc).2 (by decide)).2⟩⟩

/-! ### The date-format check is dead code (claim C7) -/

theorem matchDateAt_shape (f s d : List Char)
    (h : matchDateAt f s = some d) : isDateShape d = true := by
  unfold matchDateAt at h
  by_cases h1 : (f ++ [':']).isPrefixOf s
  · rw [if_pos h1] at h
    dsimp only at h
    by_cases h2 : isDateShape (((s.drop (f.length + 1)).dropWhile jsWS).take 10) = true
    · rw [if_pos h2] at h
      cases h
      exact h2
    · rw [if_neg h2] at h
      cases h
  · rw [if_neg h1] at h
    cases h

theorem findDateCapture_shape (f : List Char) :
    ∀ s d, findDateCapture f s = some d → isDateShape d = true := by
  intro s
  induction s with
  | nil => intro d h; cases h
  | cons c t ih =>
    intro d h
    rw [findDateCapture] at h
    cases hm : matchDateAt f (c :: t) with
    | some d' =>
      rw [hm] at h
      injection h with he
      subst he
      exact matchDateAt_shape f (c :: t) d' hm
    | none =>
      rw [hm] at h
      exact ih d h

set_option maxRecDepth 40000 in
/-- Claim C7 (code bug): `validateFrontMatter`'s date-format error branch is
unreachable — the search regex only ever captures strings that already
satisfy the strict `YYYY-MM-DD` pattern, so a malformed `date`/`lastmod`
value (e.g. `date: 2024-1-1` in `badDateDoc`) produces no fatal error at
all, contradicting the claimed (and intended) behaviour. -/
theorem date_format_check_never_fires :
    (∀ fm, dateFieldErrors fm = []) ∧ frontMatterErrors badDateDoc = [] := by
  constructor
  · intro fm
    unfold dateFieldErrors
    rw [List.filterMap_eq_nil_iff]
    intro f _
    cases h : findDateCapture f fm with
    | none => simp [h]
    | some d => simp [h, findDateCapture_shape f fm d h]
  · decide

/-! ### Field presence is checked by substring containment (claim C10) -/

/-! ### Rollback on validation failure (claim C2) -/

/-- Claim C2: for every document on which the pipeline reaches the write
(front matter parses, title and platform extract, spans non-empty), if
validation of the written candidate reports any fatal error then after
`processArticle` completes the on-disk content is byte-identical to the
original, the result status is `error`, and no backup snapshot remains. -/
theorem validation_failure_rolls_back (rwO : List Char → List Char)
    (rwC : Nat → List Char → List Char) (today file fm content : List Char)
    (hparse : parseFrontMatter file = some (fm, content))
    (htitle : (findQuoted ("title".toList) fm).isSome = true)
    (hplat : (findQuoted ("platformkey".toList) fm).isSome = true)
    (hskip : ¬(extractOpeningParagraph content = [] ∧
               extractClosingParagraphs content = []))
    (hinvalid : (validateFileModel (candidateContent rwO rwC today fm content)
        (some file)).errors ≠ []) :
    processArticle rwO rwC today file =
      ⟨file, none, some ⟨.error, [],
        some (.validationFailed (validateFileModel
          (candidateContent rwO rwC today fm content) (some file)).errors)⟩⟩ := by
  unfold processArticle
  rw [hparse]
  dsimp only
  obtain ⟨tv, htv⟩ := Option.isSome_iff_exists.mp htitle
  obtain ⟨pv, hpv⟩ := Option.isSome_iff_exists.mp hplat
  rw [htv, hpv]
  dsimp only
  rw [if_neg hskip, if_neg hinvalid]

set_option maxRecDepth 400000 in
theorem validation_failure_rolls_back_witness :
    processArticle corruptingRewrite benignClosingRewrite
        ("2025-01-01".toList) rewriteDoc =
      ⟨rewriteDoc, none, some ⟨.error, [],
        some (.validationFailed (validateFileModel
          (candidateContent corruptingRewrite benignClosingRewrite
            ("2025-01-01".toList) rewriteDocFm rewriteDocBody)
          (some rewriteDoc)).errors)⟩⟩ :=
  validation_failure_rolls_back corruptingRewrite benignClosingRewrite
    ("2025-01-01".toList) rewriteDoc rewriteDocFm rewriteDocBody
    (by decide) (by decide) (by decide) (by decide) (by decide)

/-! ### Empty spans mean skip, with no recorded result (claim C8) -/

set_option maxRecDepth 400000 in
/-- Claim C8 counterexample: for `skipDoc` both extracted spans are empty
and `processArticle` returns `null`: no `ProcessingResult` is produced at
all — in particular none with status `success` — and the run report counts
the document neither among the successful nor among the failed (total 0),
contradicting the claim that a success result is recorded and counted. -/
theorem skip_produces_no_result_cex :
    extractOpeningParagraph skipDocBody = [] ∧
    extractClosingParagraphs skipDocBody = [] ∧
    (processArticle idRewrite idClosingRewrite
      ("2025-01-01".toList) skipDoc).result = none ∧
    generateReport (runArticles idRewrite idClosingRewrite
      ("2025-01-01".toList) [skipDoc]) = ⟨0, 0, 0⟩ := by decide

/-- Claim C8 (amended): when both the opening span and the closing-span
sequence are empty, `processArticle` skips the document without treating it
as an error: it leaves the file untouched, returns `null`, records no
`ProcessingResult`, and the document appears in the run report in neither
the successful nor the failed count. -/
theorem empty_spans_skip (rwO : List Char → List Char)
    (rwC : Nat → List Char → List Char) (today file fm content : List Char)
    (hparse : parseFrontMatter file = some (fm, content))
    (htitle : (findQuoted ("title".toList) fm).isSome = true)
    (hplat : (findQuoted ("platformkey".toList) fm).isSome = true)
    (hopen : extractOpeningParagraph content = [])
    (hclose : extractClosingParagraphs content = []) :
    processArticle rwO rwC today file = ⟨file, none, none⟩ ∧
    runArticles rwO rwC today [file] = [] := by
  have h1 : processArticle rwO rwC today file = ⟨file, none, none⟩ := by
    unfold processArticle
    rw [hparse]
    dsimp only
    obtain ⟨tv, htv⟩ := Option.isSome_iff_exists.mp htitle
    obtain ⟨pv, hpv⟩ := Option.isSome_iff_exists.mp hplat
    rw [htv, hpv]
    dsimp only
    rw [if_pos ⟨hopen, hclose⟩]
  refine ⟨h1, ?_⟩
  unfold runArticles
  simp [h1]

set_option maxRecDepth 400000 in
theorem empty_spans_skip_witness :
    processArticle idRewrite idClosingRewrite ("2025-01-01".toList) skipDoc =
      ⟨skipDoc, none, none⟩ ∧
    runArticles idRewrite idClosingRewrite ("2025-01-01".toList) [skipDoc] = [] :=
  empty_spans_skip idRewrite idClosingRewrite ("2025-01-01".toList) skipDoc
    ((parseFrontMatter skipDoc).getD ([], [])).1 skipDocBody
    (by decide) (by decide) (by decide) (by decide) (by decide)

/-! ### Opening-span extraction matches its specification (claim C4) -/

theorem firstHeadingIdxAux_le (s : List Char) :
    ∀ b idx i, firstHeadingIdxAux s b idx = some i → i ≤ idx + s.length := by
  induction s with
  | nil => intro b idx i h; cases h
  | cons c t ih =>
    intro b idx i h
    rw [firstHeadingIdxAux] at h
    by_cases hc : (b && ("## ".toList).isPrefixOf (c :: t)) = true
    · rw [if_pos hc] at h
      injection h with he
      subst he
      simp only [List.length_cons]
      omega
    · rw [if_neg hc] at h
      have := ih (c = '\n') (idx + 1) i h
      simp only [List.length_cons]
      omega

theorem firstGistOpenIdxAux_le (s : List Char) :
    ∀ idx i, firstGistOpenIdxAux s idx = some i → i ≤ idx + s.length := by
  induction s with
  | nil => intro idx i h; cases h
  | cons c t ih =>
    intro idx i h
    rw [firstGistOpenIdxAux] at h
    by_cases hc : isGistOpenAt (c :: t) = true
    · rw [if_pos hc] at h
      injection h with he
      subst he
      simp only [List.length_cons]
      omega
    · rw [if_neg hc] at h
      have := ih (idx + 1) i h
      simp only [List.length_cons]
      omega

theorem firstHeadingIdx_le (s : List Char) (i : Nat)
    (h : firstHeadingIdx s = some i) : i ≤ s.length := by
  have := firstHeadingIdxAux_le s true 0 i h
  omega

theorem firstGistOpenIdx_le (s : List Char) (i : Nat)
    (h : firstGistOpenIdx s = some i) : i ≤ s.length := by
  have := firstGistOpenIdxAux_le s 0 i h
  omega

/-- Claim C4: `extractOpeningParagraph` returns the trimmed prefix ending at
the minimum of the first `## ` line offset and the first gist-opener offset
(each defaulting to the body length when absent, so a single marker's offset
is used when only one exists and the whole body when neither does), and the
empty body yields the empty string. -/
theorem extractOpening_matches_spec (content : List Char) :
    extractOpeningParagraph content = openingSpanSpec content ∧
    (content = [] → extractOpeningParagraph content = []) := by
  constructor
  · unfold extractOpeningParagraph openingSpanSpec
    cases hh : firstHeadingIdx content with
    | none =>
      cases hg : firstGistOpenIdx content with
      | none => simp
      | some gi =>
        have hgle : gi ≤ content.length := firstGistOpenIdx_le content gi hg
        simp only [Option.getD_some, Option.getD_none]
        rw [min_eq_right hgle]
    | some hi =>
      have hile : hi ≤ content.length := firstHeadingIdx_le content hi hh
      cases hg : firstGistOpenIdx content with
      | none =>
        simp only [Option.getD_some, Option.getD_none]
        rw [min_eq_left hile]
      | some gi => simp only [Option.getD_some]
  · intro h
    subst h
    rfl

theorem extractOpening_matches_spec_witness :
    extractOpeningParagraph [] = openingSpanSpec [] ∧
    extractOpeningParagraph [] = [] :=
  ⟨(extractOpening_matches_spec []).1, (extractOpening_matches_spec []).2 rfl⟩

set_option maxRecDepth 40000 in
/-- Claim C10: `validateFrontMatter` checks required-field presence by
substring containment of `field:`.  `subtitleDoc`'s front matter has no line
that begins with `title:` — the `title` field is absent — yet because the
substring `title:` occurs inside the `subtitle:` key, no missing-field error
is reported for `title` (indeed no error at all). -/
theorem missing_field_masked_by_substring :
    (¬ ("title:".toList).isPrefixOf ((vFrontMatter subtitleDoc).getD []) ∧
     ¬ containsSub ("\ntitle:".toList) ((vFrontMatter subtitleDoc).getD []) = true) ∧
    VError.missingField ("title".toList) ∉ frontMatterErrors subtitleDoc ∧
    frontMatterErrors subtitleDoc = [] := by decide

/-! ### Claim C3: infrastructure lemmas -/

theorem consHead_ne_nil (x : List Char) (L : List (List Char)) :
    consHead x L ≠ [] := by
  cases L <;> simp [consHead]

theorem consHead_append (a b : List Char) (L : List (List Char)) :
    consHead (a ++ b) L = consHead a (consHead b L) := by
  cases L <;> simp [consHead]

theorem consHead_nil (L : List (List Char)) (h : L ≠ []) :
    consHead [] L = L := by
  cases L with
  | nil => exact absurd rfl h
  | cons p ps => simp [consHead]

theorem splitNl_ne_nil (t : List Char) : splitNl t ≠ [] := by
  cases t with
  | nil => simp [splitNl]
  | cons c r =>
    rw [splitNl]
    by_cases hc : c = '\n'
    · simp [hc]
    · rw [if_neg hc]
      cases splitNl r <;> simp

theorem splitNl_dest (t : List Char) : ∃ l1 ls2, splitNl t = l1 :: ls2 := by
  cases h : splitNl t with
  | nil => exact absurd h (splitNl_ne_nil t)
  | cons a b => exact ⟨a, b, rfl⟩

theorem splitNl_cons_ne (c : Char) (r : List Char) (hc : ¬c = '\n')
    (l1 : List Char) (ls2 : List (List Char)) (hsp : splitNl r = l1 :: ls2) :
    splitNl (c :: r) = (c :: l1) :: ls2 := by
  rw [splitNl, if_neg hc, hsp]

theorem splitNl_cons_nl (r : List Char) :
    splitNl ('\n' :: r) = [] :: splitNl r := by
  rw [splitNl, if_pos rfl]

theorem firstLine_cons_nl (r : List Char) : firstLine ('\n' :: r) = [] := by
  simp [firstLine, List.takeWhile_cons]

theorem firstLine_cons_ne (c : Char) (r : List Char) (hc : ¬c = '\n') :
    firstLine (c :: r) = c :: firstLine r := by
  simp [firstLine, List.takeWhile_cons, hc]

theorem splitNl_head (r : List Char) :
    ∃ ls2, splitNl r = firstLine r :: ls2 := by
  induction r with
  | nil => exact ⟨[], rfl⟩
  | cons c t ih =>
    by_cases hc : c = '\n'
    · subst hc
      exact ⟨splitNl t, by rw [splitNl_cons_nl, firstLine_cons_nl]⟩
    · obtain ⟨ls2, hls⟩ := ih
      exact ⟨ls2, by rw [splitNl_cons_ne c t hc _ _ hls, firstLine_cons_ne c t hc]⟩

theorem splitNl_length (r : List Char) :
    (splitNl r).length = r.count '\n' + 1 := by
  induction r with
  | nil => simp [splitNl]
  | cons c t ih =>
    by_cases hc : c = '\n'
    · subst hc
      rw [splitNl_cons_nl]
      simp [List.count_cons, ih]
    · obtain ⟨l1, ls2, hsp⟩ := splitNl_dest t
      rw [splitNl_cons_ne c t hc l1 ls2 hsp]
      rw [hsp] at ih
      simp [List.count_cons, hc] at ih ⊢
      omega

theorem splitNl_tail_ne_nil (r : List Char) (l1 : List Char)
    (ls2 : List (List Char)) (hsp : splitNl r = l1 :: ls2)
    (hmem : '\n' ∈ r) : ls2 ≠ [] := by
  have hl := splitNl_length r
  rw [hsp] at hl
  have hc : 0 < r.count '\n' := List.count_pos_iff.mpr hmem
  intro h
  rw [h] at hl
  simp at hl
  omega

theorem splitNl_tail_nil (r : List Char) (l1 : List Char)
    (ls2 : List (List Char)) (hsp : splitNl r = l1 :: ls2)
    (hmem : '\n' ∉ r) : ls2 = [] := by
  have hl := splitNl_length r
  rw [hsp] at hl
  have hc : r.count '\n' = 0 := by
    rw [List.count_eq_zero]
    exact hmem
  rw [hc] at hl
  simp at hl
  exact hl

/-- A newline is whitespace. -/
theorem jsWS_nl : jsWS '\n' = true := by decide

theorem twWS_cons_pos (c : Char) (r : List Char) (hw : jsWS c = true) :
    (c :: r).takeWhile jsWS = c :: r.takeWhile jsWS := by
  simp [List.takeWhile_cons, hw]

theorem twWS_cons_neg (c : Char) (r : List Char) (hw : jsWS c = false) :
    (c :: r).takeWhile jsWS = [] := by
  simp [List.takeWhile_cons, hw]

theorem isBlankLine_nil : isBlankLine [] = true := rfl

theorem isBlankLine_cons (c : Char) (l : List Char) :
    isBlankLine (c :: l) = (jsWS c && isBlankLine l) := rfl

theorem lastNlIdx_eq_none_iff (x : List Char) :
    lastNlIdx x = none ↔ '\n' ∉ x := by
  induction x with
  | nil => simp [lastNlIdx]
  | cons c t ih =>
    rw [lastNlIdx]
    cases h : lastNlIdx t with
    | some k =>
      rw [h] at ih
      simp at ih
      simp [ih]
    | none =>
      rw [h] at ih
      simp only [true_iff] at ih
      by_cases hc : c = '\n'
      · simp [hc]
      · simp [hc, ih, Ne.symm hc]

/-- F1: the `\n\s*\n` separator regex fails at a newline exactly when the
next line is not blank or is the final line. -/
theorem sep_none_iff (r : List Char) :
    lastNlIdx (r.takeWhile jsWS) = none ↔
      ¬(isBlankLine (firstLine r) = true ∧ '\n' ∈ r) := by
  induction r with
  | nil => simp [lastNlIdx]
  | cons c r' ih =>
    by_cases hw : jsWS c = true
    · by_cases hc : c = '\n'
      · subst hc
        rw [twWS_cons_pos _ _ jsWS_nl]
        constructor
        · intro h
          rw [lastNlIdx] at h
          cases hl : lastNlIdx (r'.takeWhile jsWS) <;> rw [hl] at h <;> simp at h
        · intro h
          exact absurd ⟨by rw [firstLine_cons_nl]; rfl, by simp⟩ h
      · rw [twWS_cons_pos _ _ hw, firstLine_cons_ne _ _ hc, lastNlIdx]
        cases hl : lastNlIdx (r'.takeWhile jsWS) with
        | some k =>
          rw [hl] at ih
          simp only [reduceCtorEq, false_iff, not_not] at ih ⊢
          refine ⟨?_, List.mem_cons_of_mem c ih.2⟩
          simp [isBlankLine_cons, hw, ih.1]
        | none =>
          rw [hl] at ih
          rw [if_neg hc]
          simp only [true_iff] at ih
          simp only [true_iff]
          intro hand
          apply ih
          refine ⟨?_, ?_⟩
          · rw [isBlankLine_cons, hw] at hand
            simpa using hand.1
          · rcases List.mem_cons.mp hand.2 with h | h
            · exact absurd h.symm hc
            · exact h
    · have hc : ¬c = '\n' := fun h => hw (h ▸ jsWS_nl)
      rw [twWS_cons_neg _ _ (by simpa using hw), firstLine_cons_ne _ _ hc]
      simp only [lastNlIdx, true_iff]
      intro hand
      rw [isBlankLine_cons, (by simpa using hw : jsWS c = false)] at hand
      simp at hand

theorem blankDrop_blank_cons (b : List Char) (hb : isBlankLine b = true)
    (L : List (List Char)) (hL : L ≠ []) :
    blankDrop (b :: L) = blankDrop L := by
  unfold blankDrop
  rw [List.dropWhile_cons_of_pos hb]
  cases hdw : List.dropWhile (fun l => isBlankLine l) L with
  | nil =>
    cases L with
    | nil => exact absurd rfl hL
    | cons a t => simp [List.getLastD_cons]
  | cons x xs => rfl

/-- F2: when the separator regex fires at a newline, dropping the separator
lands at the start of the first line after the leading blank-line run (or at
the final, blank, line when every remaining line is blank). -/
theorem sep_some_drop (r : List Char) :
    ∀ k, lastNlIdx (r.takeWhile jsWS) = some k →
      splitNl (r.drop (k + 1)) = blankDrop (splitNl r) := by
  induction r with
  | nil => intro k h; cases h
  | cons c r' ih =>
    intro k h
    by_cases hw : jsWS c = true
    · by_cases hc : c = '\n'
      · subst hc
        rw [twWS_cons_pos _ _ jsWS_nl, lastNlIdx] at h
        cases hl : lastNlIdx (r'.takeWhile jsWS) with
        | some k' =>
          rw [hl] at h
          injection h with hk
          subst hk
          rw [splitNl_cons_nl]
          show splitNl (r'.drop (k' + 1)) = blankDrop ([] :: splitNl r')
          rw [blankDrop_blank_cons [] rfl _ (splitNl_ne_nil r')]
          exact ih k' hl
        | none =>
          rw [hl] at h
          rw [if_pos rfl] at h
          injection h with hk
          subst hk
          rw [splitNl_cons_nl]
          show splitNl r' = blankDrop ([] :: splitNl r')
          rw [blankDrop_blank_cons [] rfl _ (splitNl_ne_nil r')]
          obtain ⟨ls2, hsp⟩ := splitNl_head r'
          have hF1 := (sep_none_iff r').mp hl
          by_cases hb : isBlankLine (firstLine r') = true
          · have hnm : '\n' ∉ r' := fun hm => hF1 ⟨hb, hm⟩
            have hnil : ls2 = [] := splitNl_tail_nil r' _ ls2 hsp hnm
            subst hnil
            rw [hsp]
            show _ = blankDrop [firstLine r']
            unfold blankDrop
            rw [List.dropWhile_cons_of_pos hb]
            rfl
          · rw [hsp]
            unfold blankDrop
            rw [List.dropWhile_cons_of_neg (by simpa using hb)]
      · rw [twWS_cons_pos _ _ hw, lastNlIdx] at h
        cases hl : lastNlIdx (r'.takeWhile jsWS) with
        | some k' =>
          rw [hl] at h
          injection h with hk
          subst hk
          show splitNl (r'.drop (k' + 1)) = blankDrop (splitNl (c :: r'))
          have hF1 : isBlankLine (firstLine r') = true ∧ '\n' ∈ r' := by
            by_contra hAnd
            rw [← sep_none_iff r'] at hAnd
            rw [hAnd] at hl
            cases hl
          obtain ⟨ls2, hsp⟩ := splitNl_head r'
          have hne : ls2 ≠ [] := splitNl_tail_ne_nil r' _ ls2 hsp hF1.2
          have hbl : isBlankLine (c :: firstLine r') = true := by
            simp [isBlankLine_cons, hw, hF1.1]
          rw [ih k' hl, hsp, splitNl_cons_ne c r' hc _ _ hsp,
            blankDrop_blank_cons _ hF1.1 _ hne,
            blankDrop_blank_cons _ hbl _ hne]
        | none =>
          rw [hl] at h
          rw [if_neg hc] at h
          cases h
    · rw [twWS_cons_neg _ _ (by simpa using hw)] at h
      cases h

theorem jsLines_ne_nil (ls : List (List Char)) : jsLines ls ≠ [] := by
  match ls with
  | [] => simp [jsLines]
  | [l] => simp [jsLines]
  | l :: l1 :: ls2 =>
    rw [jsLines]
    split
    · split
      · simp
      · simp
    · exact consHead_ne_nil _ _

/-- `jsLines` branches only on the tail of the line list, so prefixing a
character to the first line commutes with it. -/
theorem jsLines_cons_first (c : Char) (l0 : List Char) (ls : List (List Char)) :
    jsLines ((c :: l0) :: ls) = consHead [c] (jsLines (l0 :: ls)) := by
  cases ls with
  | nil => simp [jsLines, consHead]
  | cons l1 ls2 =>
    rw [jsLines]
    conv_rhs => rw [jsLines]
    by_cases hcond : isBlankLine l1 = true ∧ ls2 ≠ []
    · rw [if_pos hcond, if_pos hcond]
      cases hdw : (l1 :: ls2).dropWhile (fun x => isBlankLine x) with
      | nil => simp [consHead]
      | cons r rs => simp [consHead]
    · rw [if_neg hcond, if_neg hcond]
      rw [← consHead_append]
      rfl

/-- Separator step of `jsLines`. -/
theorem jsLines_sep (l l1 : List Char) (ls2 : List (List Char))
    (hcond : isBlankLine l1 = true ∧ ls2 ≠ []) :
    jsLines (l :: l1 :: ls2) = l :: jsLines (blankDrop (l1 :: ls2)) := by
  rw [jsLines, if_pos hcond]
  unfold blankDrop
  cases hdw : (l1 :: ls2).dropWhile (fun x => isBlankLine x) with
  | nil => simp [jsLines]
  | cons r rs => rfl

/-- Non-separator step of `jsLines`. -/
theorem jsLines_nosep (l l1 : List Char) (ls2 : List (List Char))
    (hcond : ¬(isBlankLine l1 = true ∧ ls2 ≠ [])) :
    jsLines (l :: l1 :: ls2) = consHead (l ++ ['\n']) (jsLines (l1 :: ls2)) := by
  rw [jsLines, if_neg hcond]

/-- Lemma A: the character-level `jsSplitAux` scan computes `jsLines` of the
line decomposition, with the accumulator prefixed to the first piece. -/
theorem jsSplitAux_eq_jsLines :
    ∀ fuel t acc, t.length ≤ fuel →
      jsSplitAux fuel t acc = consHead acc.reverse (jsLines (splitNl t)) := by
  intro fuel
  induction fuel with
  | zero =>
    intro t acc hle
    have ht : t = [] := List.length_eq_zero.mp (Nat.le_zero.mp hle)
    subst ht
    simp [jsSplitAux, splitNl, jsLines, consHead]
  | succ f ih =>
    intro t acc hle
    cases t with
    | nil => simp [jsSplitAux, splitNl, jsLines, consHead]
    | cons c r =>
      rw [jsSplitAux]
      by_cases hc : c = '\n'
      · subst hc
        rw [if_pos rfl]
        cases hL : lastNlIdx (r.takeWhile jsWS) with
        | some k =>
          dsimp only
          have hdrop : (r.drop (k + 1)).length ≤ f := by
            have h1 := List.length_drop (k + 1) r
            simp only [List.length_cons] at hle
            omega
          rw [ih (r.drop (k + 1)) [] hdrop]
          rw [List.reverse_nil, consHead_nil _ (jsLines_ne_nil _)]
          rw [splitNl_cons_nl]
          have hcond : isBlankLine (firstLine r) = true ∧ '\n' ∈ r := by
            by_contra hAnd
            rw [← sep_none_iff r] at hAnd
            rw [hAnd] at hL
            cases hL
          obtain ⟨ls2, hsp⟩ := splitNl_head r
          have hne : ls2 ≠ [] := splitNl_tail_ne_nil r _ ls2 hsp hcond.2
          rw [hsp]
          rw [jsLines_sep [] (firstLine r) ls2 ⟨hcond.1, hne⟩]
          rw [sep_some_drop r k hL, hsp]
          simp [consHead]
        | none =>
          dsimp only
          rw [ih r ('\n' :: acc) (by simpa using hle)]
          rw [splitNl_cons_nl]
          obtain ⟨ls2, hsp⟩ := splitNl_head r
          rw [hsp]
          have hF1 := (sep_none_iff r).mp hL
          have hcond : ¬(isBlankLine (firstLine r) = true ∧ ls2 ≠ []) := by
            intro hand
            apply hF1
            refine ⟨hand.1, ?_⟩
            by_contra hnm
            exact hand.2 (splitNl_tail_nil r _ ls2 hsp hnm)
          rw [jsLines_nosep [] (firstLine r) ls2 hcond]
          rw [show ([] : List Char) ++ ['\n'] = ['\n'] from rfl]
          rw [List.reverse_cons]
          rw [consHead_append]
      · rw [if_neg hc]
        rw [ih r (c :: acc) (by simpa using hle)]
        obtain ⟨l0, ls, hsp⟩ := splitNl_dest r
        rw [splitNl_cons_ne c r hc _ _ hsp, hsp]
        rw [jsLines_cons_first c l0 ls]
        rw [List.reverse_cons, consHead_append]

theorem jsSplitBlank_eq_jsLines (t : List Char) :
    jsSplitBlank t = jsLines (splitNl t) := by
  unfold jsSplitBlank
  rw [jsSplitAux_eq_jsLines t.length t [] le_rfl]
  rw [List.reverse_nil]
  exact consHead_nil _ (jsLines_ne_nil _)

theorem isBlankLine_append (a b : List Char) :
    isBlankLine (a ++ b) = (isBlankLine a && isBlankLine b) := by
  simp [isBlankLine, List.all_append]

theorem isBlankLine_reverse (a : List Char) :
    isBlankLine a.reverse = isBlankLine a := by
  unfold isBlankLine
  induction a with
  | nil => rfl
  | cons c t ih =>
    simp [List.all_append, List.all_cons, ih, Bool.and_comm]

theorem dropWhile_blank_append (u v : List Char) (hu : isBlankLine u = true) :
    (u ++ v).dropWhile jsWS = v.dropWhile jsWS := by
  induction u with
  | nil => rfl
  | cons c u' ih =>
    rw [isBlankLine_cons] at hu
    simp only [Bool.and_eq_true] at hu
    rw [List.cons_append, List.dropWhile_cons_of_pos hu.1]
    exact ih hu.2

theorem dropWhile_append_of_ne (a b : List Char)
    (ha : a.dropWhile jsWS ≠ []) :
    (a ++ b).dropWhile jsWS = a.dropWhile jsWS ++ b := by
  induction a with
  | nil => exact absurd rfl ha
  | cons c a' ih =>
    by_cases hw : jsWS c = true
    · rw [List.dropWhile_cons_of_pos hw] at ha
      rw [List.cons_append, List.dropWhile_cons_of_pos hw,
        List.dropWhile_cons_of_pos hw]
      exact ih ha
    · have hw' : jsWS c = false := by simpa using hw
      rw [List.cons_append, List.dropWhile_cons_of_neg (by simp [hw']),
        List.dropWhile_cons_of_neg (by simp [hw'])]
      simp

theorem trimL_eq_nil_iff (x : List Char) :
    trimL x = [] ↔ isBlankLine x = true := by
  unfold trimL
  rw [List.reverse_eq_nil_iff, List.dropWhile_eq_nil_iff]
  unfold isBlankLine
  rw [List.all_eq_true]
  constructor
  · intro h a ha
    have hx := List.takeWhile_append_dropWhile (p := jsWS) (l := x)
    rw [← hx] at ha
    rcases List.mem_append.mp ha with hm | hm
    · exact List.mem_takeWhile_imp hm
    · exact h a (List.mem_reverse.mpr hm)
  · intro h a ha
    exact h a ((List.dropWhile_sublist jsWS).subset (List.mem_reverse.mp ha))

theorem trimL_append_blank (a b : List Char) (hb : isBlankLine b = true) :
    trimL (a ++ b) = trimL a := by
  by_cases ha : isBlankLine a = true
  · have h1 : isBlankLine (a ++ b) = true := by
      rw [isBlankLine_append, ha, hb]
      rfl
    rw [(trimL_eq_nil_iff _).mpr h1, (trimL_eq_nil_iff _).mpr ha]
  · have hne : a.dropWhile jsWS ≠ [] := by
      intro h0
      apply ha
      unfold isBlankLine
      rw [List.all_eq_true]
      intro x hx
      have hta := List.takeWhile_append_dropWhile (p := jsWS) (l := a)
      rw [h0, List.append_nil] at hta
      rw [← hta] at hx
      exact List.mem_takeWhile_imp hx
    unfold trimL
    rw [dropWhile_append_of_ne a b hne, List.reverse_append,
      dropWhile_blank_append _ _ (by rw [isBlankLine_reverse]; exact hb)]

theorem trimL_blank_append (a b : List Char) (ha : isBlankLine a = true) :
    trimL (a ++ b) = trimL b := by
  unfold trimL
  rw [dropWhile_blank_append a b ha]

theorem blankGroups_blank_cons (l : List Char) (ls : List (List Char))
    (hb : isBlankLine l = true) :
    blankGroups (l :: ls) = blankGroups ls := by
  rw [blankGroups.eq_def]
  simp [hb]

theorem blankGroups_two (l l1 : List Char) (ls2 : List (List Char))
    (hb1 : isBlankLine l1 = true) :
    blankGroups (l :: l1 :: ls2) =
      (if isBlankLine l = true then [] else [[l]]) ++ blankGroups (l1 :: ls2) := by
  by_cases hb : isBlankLine l = true
  · rw [if_pos hb, blankGroups_blank_cons _ _ hb]
    rfl
  · rw [if_neg hb, blankGroups.eq_def]
    simp [hb, hb1]

theorem blankGroups_cons_nonblank (l l1 : List Char) (ls2 : List (List Char))
    (hb : isBlankLine l = false) (hb1 : isBlankLine l1 = false)
    (g : List (List Char)) (gs : List (List (List Char)))
    (hbg : blankGroups (l1 :: ls2) = g :: gs) :
    blankGroups (l :: l1 :: ls2) = (l :: g) :: gs := by
  rw [blankGroups.eq_def]
  simp [hb, hb1, hbg]

theorem blankGroups_dropWhile (ls : List (List Char)) :
    blankGroups (ls.dropWhile (fun l => isBlankLine l)) = blankGroups ls := by
  induction ls with
  | nil => rfl
  | cons l ls ih =>
    by_cases hb : isBlankLine l = true
    · rw [List.dropWhile_cons_of_pos hb, blankGroups_blank_cons _ _ hb, ih]
    · rw [List.dropWhile_cons_of_neg (by simpa using hb)]

theorem joinNl_cons (l : List Char) (g : List (List Char)) (hg : g ≠ []) :
    joinNl (l :: g) = l ++ '\n' :: joinNl g := by
  cases g with
  | nil => exact absurd rfl hg
  | cons a b => rfl

theorem not_isEmpty_of_ne (x : List Char) (h : ¬x = []) : (!x.isEmpty) = true := by
  cases x with
  | nil => exact absurd rfl h
  | cons a t => rfl

theorem getLastD_mem_of_ne (ls : List (List Char)) :
    ∀ d, ls ≠ [] → ls.getLastD d ∈ ls := by
  induction ls with
  | nil => intro d h; exact absurd rfl h
  | cons a t ih =>
    intro d _
    rw [List.getLastD_cons]
    cases t with
    | nil => simp [List.getLastD]
    | cons x xs => exact List.mem_cons_of_mem a (ih a (by simp))

/-- Head-group correspondence: when the first line is not blank, the first
piece of `jsLines` is the join of the first group of `blankGroups` followed
by blank padding. -/
theorem head_group (ls' : List (List Char)) :
    ∀ l0, isBlankLine l0 = false →
      ∃ g gs w ps, blankGroups (l0 :: ls') = g :: gs ∧ g ≠ [] ∧
        isBlankLine (joinNl g) = false ∧
        jsLines (l0 :: ls') = (joinNl g ++ w) :: ps ∧ isBlankLine w = true := by
  induction ls' with
  | nil =>
    intro l0 hb0
    refine ⟨[l0], [], [], [], ?_, by simp, ?_, ?_, rfl⟩
    · rw [blankGroups.eq_def]
      simp [hb0]
    · simpa [joinNl] using hb0
    · simp [jsLines, joinNl]
  | cons l1 ls2 ih =>
    intro l0 hb0
    by_cases hsep : isBlankLine l1 = true ∧ ls2 ≠ []
    · refine ⟨[l0], blankGroups (l1 :: ls2), [],
        jsLines (blankDrop (l1 :: ls2)), ?_, by simp, ?_, ?_, rfl⟩
      · rw [blankGroups_two l0 l1 ls2 hsep.1]
        simp [hb0]
      · simpa [joinNl] using hb0
      · rw [jsLines_sep l0 l1 ls2 hsep]
        simp [joinNl]
    · by_cases hb1 : isBlankLine l1 = true
      · have hls2 : ls2 = [] := by
          by_contra hne
          exact hsep ⟨hb1, hne⟩
        subst hls2
        refine ⟨[l0], [], '\n' :: l1, [], ?_, by simp, ?_, ?_, ?_⟩
        · rw [blankGroups_two l0 l1 [] hb1, if_neg (by simp [hb0]),
            blankGroups_blank_cons l1 [] hb1]
          rfl
        · simpa [joinNl] using hb0
        · rw [jsLines_nosep l0 l1 [] hsep]
          simp [jsLines, consHead, joinNl]
        · simp [isBlankLine_cons, jsWS_nl, hb1]
      · have hb1' : isBlankLine l1 = false := by simpa using hb1
        obtain ⟨g, gs, w, ps, hbg, hgne, hgb, hjs, hwb⟩ := ih l1 hb1'
        refine ⟨l0 :: g, gs, w, ps, ?_, by simp, ?_, ?_, hwb⟩
        · exact blankGroups_cons_nonblank l0 l1 ls2 hb0 hb1' g gs hbg
        · rw [joinNl_cons l0 g hgne,
            show l0 ++ '\n' :: joinNl g = l0 ++ ('\n' :: joinNl g) from rfl,
            isBlankLine_append, hb0]
          rfl
        · rw [jsLines_nosep l0 l1 ls2 hsep, hjs, joinNl_cons l0 g hgne]
          simp [consHead]

/-- Lemma B: after trimming and discarding empty pieces, the line-level scan
agrees with the maximal non-blank-line groups. -/
theorem jsLines_trim_filter (n : Nat) :
    ∀ ls : List (List Char), ls.length ≤ n →
      ((jsLines ls).map trimL).filter (fun p => !p.isEmpty) =
        (blankGroups ls).map (fun g => trimL (joinNl g)) := by
  induction n with
  | zero =>
    intro ls hle
    have h0 : ls = [] := List.length_eq_zero.mp (Nat.le_zero.mp hle)
    subst h0
    simp [jsLines, blankGroups, trimL]
  | succ n ih =>
    intro ls hle
    match ls with
    | [] => simp [jsLines, blankGroups, trimL]
    | [l] =>
      have hjl : jsLines [l] = [l] := by simp [jsLines]
      rw [hjl]
      by_cases hb : isBlankLine l = true
      · rw [blankGroups_blank_cons l [] hb]
        have ht : trimL l = [] := (trimL_eq_nil_iff _).mpr hb
        simp [blankGroups, ht]
      · have hbg : blankGroups [l] = [[l]] := by
          rw [blankGroups.eq_def]
          simp [hb]
        rw [hbg]
        have ht : ¬trimL l = [] := fun h => hb ((trimL_eq_nil_iff _).mp h)
        simp [joinNl, List.filter_cons, not_isEmpty_of_ne _ ht]
    | l :: l1 :: ls2 =>
      by_cases hsep : isBlankLine l1 = true ∧ ls2 ≠ []
      · rw [jsLines_sep l l1 ls2 hsep, blankGroups_two l l1 ls2 hsep.1]
        cases hdw : (l1 :: ls2).dropWhile (fun x => isBlankLine x) with
        | nil =>
          have hbd : blankDrop (l1 :: ls2) = [(l1 :: ls2).getLastD []] := by
            unfold blankDrop
            rw [hdw]
          have hjs2 : jsLines [(l1 :: ls2).getLastD []] =
              [(l1 :: ls2).getLastD []] := by
            simp [jsLines]
          have hlb : isBlankLine ((l1 :: ls2).getLastD []) = true := by
            have hall := List.dropWhile_eq_nil_iff.mp hdw
            exact hall _ (getLastD_mem_of_ne (l1 :: ls2) [] (by simp))
          have hbg2 : blankGroups (l1 :: ls2) = [] := by
            rw [← blankGroups_dropWhile (l1 :: ls2), hdw]
            rfl
          rw [hbd, hjs2, hbg2]
          have ht1 : trimL ((l1 :: ls2).getLastD []) = [] :=
            (trimL_eq_nil_iff _).mpr hlb
          simp only [List.getLastD_eq_getLast?] at ht1
          by_cases hb : isBlankLine l = true
          · rw [if_pos hb]
            have ht : trimL l = [] := (trimL_eq_nil_iff _).mpr hb
            simp [ht, ht1]
          · rw [if_neg hb]
            have ht : ¬trimL l = [] := fun h => hb ((trimL_eq_nil_iff _).mp h)
            simp [joinNl, List.filter_cons, not_isEmpty_of_ne _ ht, ht1]
        | cons r rs =>
          have hbd : blankDrop (l1 :: ls2) = r :: rs := by
            unfold blankDrop
            rw [hdw]
          rw [hbd]
          have hlen : (r :: rs).length ≤ n := by
            have hsub := (List.dropWhile_sublist (l := l1 :: ls2)
              (fun x => isBlankLine x)).length_le
            rw [hdw] at hsub
            simp only [List.length_cons] at hle hsub ⊢
            omega
          have hIH := ih (r :: rs) hlen
          have hbg2 : blankGroups (l1 :: ls2) = blankGroups (r :: rs) := by
            rw [← blankGroups_dropWhile (l1 :: ls2), hdw]
          rw [hbg2]
          by_cases hb : isBlankLine l = true
          · rw [if_pos hb]
            have ht : trimL l = [] := (trimL_eq_nil_iff _).mpr hb
            simpa [ht] using hIH
          · rw [if_neg hb]
            have ht : ¬trimL l = [] := fun h => hb ((trimL_eq_nil_iff _).mp h)
            simp only [List.map_cons, List.filter_cons,
              not_isEmpty_of_ne _ ht, if_pos]
            rw [hIH]
            simp [joinNl]
      · by_cases hb1 : isBlankLine l1 = true
        · have hls2 : ls2 = [] := by
            by_contra hne
            exact hsep ⟨hb1, hne⟩
          subst hls2
          rw [jsLines_nosep l l1 [] hsep]
          have hjs1 : jsLines [l1] = [l1] := by simp [jsLines]
          rw [hjs1]
          have hch : consHead (l ++ ['\n']) [l1] = [l ++ ('\n' :: l1)] := by
            simp [consHead]
          rw [hch]
          have htr : trimL (l ++ ('\n' :: l1)) = trimL l := by
            apply trimL_append_blank
            simp [isBlankLine_cons, jsWS_nl, hb1]
          by_cases hb : isBlankLine l = true
          · have hbg : blankGroups [l, l1] = [] := by
              rw [blankGroups_blank_cons _ _ hb, blankGroups_blank_cons _ _ hb1]
              rfl
            rw [hbg]
            have ht : trimL l = [] := (trimL_eq_nil_iff _).mpr hb
            simp [htr, ht]
          · have hbg : blankGroups [l, l1] = [[l]] := by
              rw [blankGroups_two l l1 [] hb1, if_neg hb,
                blankGroups_blank_cons _ _ hb1]
              rfl
            rw [hbg]
            have ht : ¬trimL l = [] := fun h => hb ((trimL_eq_nil_iff _).mp h)
            simp [htr, joinNl, List.filter_cons, not_isEmpty_of_ne _ ht]
        · have hb1' : isBlankLine l1 = false := by simpa using hb1
          obtain ⟨g, gs, w, ps, hbg, hgne, hgb, hjs, hwb⟩ := head_group ls2 l1 hb1'
          rw [jsLines_nosep l l1 ls2 hsep, hjs]
          have hch : consHead (l ++ ['\n']) ((joinNl g ++ w) :: ps) =
              (l ++ '\n' :: (joinNl g ++ w)) :: ps := by
            simp [consHead, List.append_assoc]
          rw [hch]
          have hIH := ih (l1 :: ls2) (by simp only [List.length_cons] at hle ⊢; omega)
          rw [hjs, hbg] at hIH
          have htg : trimL (joinNl g ++ w) = trimL (joinNl g) :=
            trimL_append_blank _ _ hwb
          have htgne : ¬trimL (joinNl g) = [] := by
            intro h
            rw [trimL_eq_nil_iff] at h
            rw [h] at hgb
            cases hgb
          have hIH' : (ps.map trimL).filter (fun p => !p.isEmpty) =
              gs.map (fun g => trimL (joinNl g)) := by
            rw [List.map_cons, List.filter_cons, htg,
              if_pos (not_isEmpty_of_ne _ htgne), List.map_cons] at hIH
            exact (List.cons_eq_cons.mp hIH).2
          by_cases hb : isBlankLine l = true
          · rw [blankGroups_blank_cons _ _ hb, hbg]
            have htr : trimL (l ++ '\n' :: (joinNl g ++ w)) = trimL (joinNl g) := by
              rw [show l ++ '\n' :: (joinNl g ++ w) =
                (l ++ ['\n']) ++ (joinNl g ++ w) by simp]
              rw [trimL_blank_append _ _
                (by rw [isBlankLine_append, hb]; decide)]
              exact htg
            rw [List.map_cons, List.filter_cons, htr,
              if_pos (not_isEmpty_of_ne _ htgne), List.map_cons, hIH']
          · rw [blankGroups_cons_nonblank l l1 ls2 (by simpa using hb) hb1' g gs hbg]
            have hjoin : joinNl (l :: g) = l ++ '\n' :: joinNl g := joinNl_cons l g hgne
            have htr : trimL (l ++ '\n' :: (joinNl g ++ w)) = trimL (joinNl (l :: g)) := by
              rw [hjoin, show l ++ '\n' :: (joinNl g ++ w) =
                (l ++ '\n' :: joinNl g) ++ w by simp]
              exact trimL_append_blank _ _ hwb
            have htrne : ¬trimL (joinNl (l :: g)) = [] := by
              intro h
              rw [trimL_eq_nil_iff, hjoin,
                show l ++ '\n' :: joinNl g = l ++ ('\n' :: joinNl g) from rfl,
                isBlankLine_append] at h
              rw [(by simpa using hb : isBlankLine l = false)] at h
              cases h
            rw [List.map_cons, List.filter_cons, htr,
              if_pos (not_isEmpty_of_ne _ htrne), List.map_cons, hIH']

/-- The closing-paragraph filter discards exactly the empty pieces (among
others), so it can be routed through the nonempty filter. -/
theorem filter_closing_pred (Y : List (List Char)) :
    Y.filter (fun p => 1 ≤ p.length && !isHeadingStart p) =
      (Y.filter (fun p => !p.isEmpty)).filter
        (fun p => 1 ≤ p.length && !isHeadingStart p) := by
  rw [List.filter_filter]
  apply List.filter_congr
  intro p _
  cases p with
  | nil => rfl
  | cons a t => simp

/-- Claim C3: `extractClosingParagraphs` returns the empty sequence when the
body has no gist occurrence, and otherwise exactly the trimmed maximal
blank-line-separated paragraphs of the text strictly after the last
occurrence, in document order, excluding empty and heading-initial
candidates — i.e. it coincides with the spec-modelled `closingSpanSpec`. -/
theorem extractClosing_matches_spec (content : List Char) :
    extractClosingParagraphs content = closingSpanSpec content := by
  unfold extractClosingParagraphs closingSpanSpec
  cases afterLastGist content with
  | none => rfl
  | some rest =>
    dsimp only
    rw [jsSplitBlank_eq_jsLines]
    rw [filter_closing_pred (List.map trimL (jsLines (splitNl rest)))]
    rw [jsLines_trim_filter (splitNl rest).length (splitNl rest) le_rfl]
    rw [List.map_map]
    rfl

end Workflow
